import Mathlib

/-!
Verification of the stamp geometry and page-rotation-safe document engine.

Shallow embedding of the TypeScript sources over exact rational arithmetic:
- coordinate-mapper.ts : screenToPdf / pdfToScreen
- helpers.ts (pdf-service part) : fitFontSize, applyStamps, mergePdfs, splitPdf
- the renderer App component : recalculateNumbers
- the main-process split-pdf IPC channel wrapper.

JavaScript numbers are modelled as rationals; page-oriented documents are
modelled as lists of pages carrying dimensions, a rotation flag and a list of
recorded draw operations.
-/

namespace Stamp

/-! ## CoordinateMapper (coordinate-mapper.ts) -/

/-- The part of a DOMRect that coordinate mapping reads. -/
structure DOMRect where
  left : ℚ
  top : ℚ
deriving DecidableEq

/-- Model of `screenToPdf` from coordinate-mapper.ts: pointer position relative to the
container, normalised by the display size, then scaled to page points with the
vertical axis inverted. -/
def screenToPdf (mouseX mouseY : ℚ) (containerRect : DOMRect)
    (pdfPageWidth pdfPageHeight displayWidth displayHeight : ℚ) : ℚ × ℚ :=
  let relX := mouseX - containerRect.left
  let relY := mouseY - containerRect.top
  let normX := relX / displayWidth
  let normY := relY / displayHeight
  (normX * pdfPageWidth, (1 - normY) * pdfPageHeight)

/-- Model of `pdfToScreen` from coordinate-mapper.ts: page point coordinates normalised
by the page size and scaled to display pixels, vertical axis inverted. -/
def pdfToScreen (pdfX pdfY pdfPageWidth pdfPageHeight displayWidth displayHeight : ℚ) :
    ℚ × ℚ :=
  let normX := pdfX / pdfPageWidth
  let normY := pdfY / pdfPageHeight
  (normX * displayWidth, (1 - normY) * displayHeight)

/-! ## ArcTextLayout (fitFontSize in helpers.ts / fitFontSizeCanvas in
stamp-renderer.ts)

Both implementations run the same loop; they differ only in how a single
glyph width is measured (`font.widthOfTextAtSize` versus `ctx.measureText`).
The measurement is therefore a parameter `w : Char → ℚ → ℚ` giving the width
of one character at a font size. -/

/-- Total width of the character row at a font size: sum of glyph widths plus
`0.08 * fontSize` spacing between the `n` glyphs, i.e. `spacing * (n - 1)`
(which is negative for the empty text, as in the source). -/
def totalWidth (w : Char → ℚ → ℚ) (chars : List Char) (fontSize : ℚ) : ℚ :=
  (chars.map (fun c => w c fontSize)).sum + (fontSize * (8/100)) * ((chars.length : ℚ) - 1)

/-- Angular width of the character row at a font size on a circle of the given
radius. -/
def totalAngle (w : Char → ℚ → ℚ) (chars : List Char) (fontSize radius : ℚ) : ℚ :=
  totalWidth w chars fontSize / radius

/-- The shrink loop of `fitFontSize`: up to `fuel` attempts, each attempt
checks the angular width at the current size and either stops or multiplies
the size by 0.9. -/
def fitLoop (w : Char → ℚ → ℚ) (chars : List Char) (radius maxAngle : ℚ) :
    ℕ → ℚ → ℚ
  | 0, fontSize => fontSize
  | n + 1, fontSize =>
      if totalAngle w chars fontSize radius ≤ maxAngle then fontSize
      else fitLoop w chars radius maxAngle n (fontSize * (9/10))

/-- The font sizes at which the shrink loop actually evaluates the
angular-width check, in order. -/
def evaluatedSizes (w : Char → ℚ → ℚ) (chars : List Char) (radius maxAngle : ℚ) :
    ℕ → ℚ → List ℚ
  | 0, _ => []
  | n + 1, fontSize =>
      fontSize ::
        (if totalAngle w chars fontSize radius ≤ maxAngle then []
         else evaluatedSizes w chars radius maxAngle n (fontSize * (9/10)))

/-- Model of `fitFontSize` from helpers.ts (and `fitFontSizeCanvas` from
stamp-renderer.ts): starts at `maxFontSize` and runs the shrink loop for at
most 20 attempts. -/
def fitFontSize (w : Char → ℚ → ℚ) (text : String) (maxFontSize radius maxAngle : ℚ) : ℚ :=
  fitLoop w text.data radius maxAngle 20 maxFontSize

/-! ## Pieces and renumbering (App component, `recalculateNumbers`) -/

/-- A stamp placement: page index, document-space position, sequence number. -/
structure StampPlacement where
  pageIndex : ℕ
  x : ℚ
  y : ℚ
  number : Int
deriving DecidableEq

/-- A piece: a logical document unit tracked by the renderer. -/
structure PieceDocument where
  id : String
  fileName : String
  displayName : Option String
  pdfBuffer : List ℕ
  totalPages : ℕ
  placements : List StampPlacement
deriving DecidableEq

/-- Assign consecutive numbers starting at `num` to a list of placements
(the `placements.map` with the mutable `num++` counter). -/
def assignNumbers (num : Int) : List StampPlacement → List StampPlacement
  | [] => []
  | p :: rest => { p with number := num } :: assignNumbers (num + 1) rest

/-- Model of `recalculateNumbers` from the App component: walk pieces in order,
return pieces with no placement unchanged (and do not advance the counter),
otherwise renumber the placements of that piece consecutively. -/
def recalculateNumbers : List PieceDocument → Int → List PieceDocument
  | [], _ => []
  | piece :: rest, num =>
      if piece.placements.length = 0 then
        piece :: recalculateNumbers rest num
      else
        { piece with placements := assignNumbers num piece.placements } ::
          recalculateNumbers rest (num + piece.placements.length)

/-- Forget stamp numbers: used to state that renumbering changes nothing but
the `number` fields. -/
def stripNumbers (piece : PieceDocument) : PieceDocument :=
  { piece with placements := piece.placements.map (fun pl => { pl with number := 0 }) }

/-! ## Page-oriented document model (pdf-lib as used by helpers.ts)

A document is a list of pages. A page records its media-box dimensions, its
rotation flag, and the draw operations performed on it. Drawing a stamp is
recorded as one operation carrying the parameters handed to
`drawStampOnPage`; drawing an embedded source page is recorded with its
translate/rotate options (pdf-lib defaults are x = 0, y = 0, rotate = 0). -/

/-- A draw operation recorded on a page. -/
inductive DrawOp where
  /-- Operation `drawPage` of the page embedded from source page `srcIdx`, at
  translation `(tx, ty)` with rotation `rotateDeg` degrees. -/
  | embedPage (srcIdx : ℕ) (tx ty : ℚ) (rotateDeg : Int)
  /-- Operation `drawStampOnPage` at centre `(x, y)` with outer radius `radius` and
  centre number `number`. -/
  | stamp (x y radius : ℚ) (number : Int)
deriving DecidableEq

/-- A page of a loaded document. -/
structure PdfPage where
  width : ℚ
  height : ℚ
  rotationAngle : Int
  ops : List DrawOp
deriving DecidableEq

/-- Model of `pdfDoc.getPage(i)`: fails when the index is out of range. -/
def getPage (pages : List PdfPage) (i : ℕ) : Except String PdfPage :=
  match pages[i]? with
  | some p => Except.ok p
  | none => Except.error "page index out of range"

/-- Model of `Array.from(\x7b length \x7d, (_, i) => start + i)`: JavaScript clamps a
negative length to zero. -/
def rangeFromInt (start len : Int) : List Int :=
  (List.range len.toNat).map (fun (j : ℕ) => start + (j : Int))

/-- Model of `PDFDocument.copyPages(srcDoc, indices)`: looks each index up in the
source page array; an out-of-range (or negative) index hits `undefined` and
throws. -/
def copyPages (src : List PdfPage) (indices : List Int) : Except String (List PdfPage) :=
  indices.mapM (fun i =>
    if 0 ≤ i then getPage src i.toNat
    else Except.error "page index out of range")

/-- Model of `mergePdfs` from helpers.ts: copy all pages of the second document
(`getPageIndices()` = `[0, .., pageCount-1]`) and append them to the first. -/
def mergePdfs (doc1 doc2 : List PdfPage) : Except String (List PdfPage) := do
  let pages2 ← copyPages doc2 (rangeFromInt 0 doc2.length)
  Except.ok (doc1 ++ pages2)

/-- Model of `splitPdf` from helpers.ts: part1 = pages `0..afterPageIndex` (index list
of length `afterPageIndex + 1` from 0), part2 = pages `afterPageIndex+1..end`
(index list of length `totalPages - afterPageIndex - 1` from
`afterPageIndex + 1`). No range validation of its own. -/
def splitPdf (pages : List PdfPage) (afterPageIndex : Int) :
    Except String (List PdfPage × List PdfPage) := do
  let part1 ← copyPages pages (rangeFromInt 0 (afterPageIndex + 1))
  let part2 ← copyPages pages
    (rangeFromInt (afterPageIndex + 1) ((pages.length : Int) - afterPageIndex - 1))
  Except.ok (part1, part2)

/-- The main-process split-pdf IPC channel: rejects a negative index before
calling `splitPdf`. -/
def splitPdfChannel (pages : List PdfPage) (afterPageIndex : Int) :
    Except String (List PdfPage × List PdfPage) :=
  if afterPageIndex < 0 then Except.error "Index de page invalide pour la scission."
  else splitPdf pages afterPageIndex

/-- Whether an Except result is an error. -/
def isErr {ε α : Type} : Except ε α → Bool
  | Except.error _ => true
  | Except.ok _ => false

/-! ## applyStamps (helpers.ts) -/

/-- Stamp configuration handed to `applyStamps`. -/
structure StampConfig where
  lawyerName : String
  bottomText : String
  radius : ℚ
deriving DecidableEq

/-- The A4 portrait short side in PDF points, the reference for radius
scaling. -/
def A4_SHORT : ℚ := 59528/100

/-- Model of `drawStampOnPage`: recorded as one stamp draw operation appended to the
page content. -/
def drawStampOnPage (page : PdfPage) (cx cy outerRadius : ℚ) (stampNumber : Int) : PdfPage :=
  { page with ops := page.ops ++ [DrawOp.stamp cx cy outerRadius stampNumber] }

/-- The per-page body of the `applyStamps` loop: scale the radius from the
page short side, then either draw directly (no rotation) or rebuild the page
at its visual dimensions with the embedded original drawn at the corrective
translate/rotate, and draw the placements on the replacement. -/
def stampPage (cfg : StampConfig) (placements : List StampPlacement)
    (pageIndex : ℕ) (page : PdfPage) : PdfPage :=
  let pagePlacements := placements.filter (fun pl => pl.pageIndex == pageIndex)
  let pageShortSide := min page.width page.height
  let scaledRadius := cfg.radius * (pageShortSide / A4_SHORT)
  if page.rotationAngle = 0 then
    pagePlacements.foldl
      (fun pg pl => drawStampOnPage pg pl.x pl.y scaledRadius pl.number) page
  else
    let rawW := page.width
    let rawH := page.height
    let isSwapped := page.rotationAngle = 90 ∨ page.rotationAngle = 270
    let visualW := if isSwapped then rawH else rawW
    let visualH := if isSwapped then rawW else rawH
    let op : DrawOp :=
      if page.rotationAngle = 90 then DrawOp.embedPage pageIndex 0 rawW (-90)
      else if page.rotationAngle = 180 then DrawOp.embedPage pageIndex rawW rawH (-180)
      else if page.rotationAngle = 270 then DrawOp.embedPage pageIndex rawH 0 90
      else DrawOp.embedPage pageIndex 0 0 0
    let base : PdfPage := { width := visualW, height := visualH, rotationAngle := 0, ops := [op] }
    let visualShortSide := min visualW visualH
    let scaledRadiusRotated := cfg.radius * (visualShortSide / A4_SHORT)
    pagePlacements.foldl
      (fun pg pl => drawStampOnPage pg pl.x pl.y scaledRadiusRotated pl.number) base

/-- One iteration of the `applyStamps` page loop on the current page list.
A page with rotation is removed and a replacement inserted at the same index;
a page without rotation is drawn on in place. -/
def stampStep (cfg : StampConfig) (placements : List StampPlacement)
    (pages : List PdfPage) (pageIndex : ℕ) : Except String (List PdfPage) := do
  let page ← getPage pages pageIndex
  if page.rotationAngle = 0 then
    Except.ok (pages.set pageIndex (stampPage cfg placements pageIndex page))
  else
    Except.ok ((pages.eraseIdx pageIndex).insertIdx pageIndex
      (stampPage cfg placements pageIndex page))

/-- Model of `applyStamps` from helpers.ts: group placements by page index, process
the distinct page indices in descending order. -/
def applyStamps (pages : List PdfPage) (placements : List StampPlacement)
    (cfg : StampConfig) : Except String (List PdfPage) := do
  let pageIndices := (placements.map (fun pl => pl.pageIndex)).dedup
  let sortedPageIndices := pageIndices.mergeSort (fun a b => decide (b ≤ a))
  let pagesAt ← sortedPageIndices.mapM (getPage pages)
  let _hasRotatedPages := pagesAt.any (fun p => p.rotationAngle != 0)
  sortedPageIndices.foldlM (stampStep cfg placements) pages

/-! ## Theorems -/

/-! ### C1: screen/pdf round trip -/

/-- C1 (counterexample): with the display container at `(left=100, top=50)`,
display 700x990 and an A4 page, the pointer position `(100, 50)` round-trips
through `screenToPdf` then `pdfToScreen` to `(0, 0)`, which is more than
0.1 unit away from `(100, 50)`. -/
theorem roundtrip_identity_counterexample :
    pdfToScreen (screenToPdf 100 50 ⟨100, 50⟩ (59528/100) (84189/100) 700 990).1
        (screenToPdf 100 50 ⟨100, 50⟩ (59528/100) (84189/100) 700 990).2
        (59528/100) (84189/100) 700 990 = (0, 0) ∧
    ¬ (|(0 : ℚ) - 100| ≤ 1/10 ∧ |(0 : ℚ) - 50| ≤ 1/10) := by
  constructor
  · norm_num [screenToPdf, pdfToScreen]
  · norm_num

/-- C1 (amended): for positive page and display dimensions, composing
`screenToPdf` with `pdfToScreen` returns the pointer position relative to the
top-left corner of the container, `(p.x - containerRect.left, p.y -
containerRect.top)`, exactly; it equals `p` itself precisely when the
container rectangle sits at the origin. -/
theorem roundtrip_relative_to_container
    (mouseX mouseY left top pageW pageH dispW dispH : ℚ)
    (hpw : 0 < pageW) (hph : 0 < pageH) (hdw : 0 < dispW) (hdh : 0 < dispH) :
    pdfToScreen (screenToPdf mouseX mouseY ⟨left, top⟩ pageW pageH dispW dispH).1
        (screenToPdf mouseX mouseY ⟨left, top⟩ pageW pageH dispW dispH).2
        pageW pageH dispW dispH = (mouseX - left, mouseY - top) := by
  unfold screenToPdf pdfToScreen
  dsimp only
  rw [Prod.mk.injEq]
  constructor
  · field_simp
    ring
  · field_simp
    ring

/-- C1 witness: the amended round trip evaluated at a concrete input. -/
theorem roundtrip_relative_to_container_witness :
    pdfToScreen (screenToPdf 450 545 ⟨100, 50⟩ (59528/100) (84189/100) 700 990).1
        (screenToPdf 450 545 ⟨100, 50⟩ (59528/100) (84189/100) 700 990).2
        (59528/100) (84189/100) 700 990 = (350, 495) := by
  rw [show (59528 : ℚ)/100 = 14882/25 by norm_num]
  have h := roundtrip_relative_to_container 450 545 100 50 (14882/25) (84189/100) 700 990
    (by norm_num) (by norm_num) (by norm_num) (by norm_num)
  norm_num at h
  exact h

/-! ### C4 / C9: renumbering -/

/-- Spec-side helper: the list `start, start+1, ..., start+n-1` of `n`
consecutive integers. -/
def consecutiveFrom (start : Int) (n : ℕ) : List Int :=
  (List.range n).map (fun (i : ℕ) => start + (i : Int))

theorem consecutiveFrom_zero (start : Int) : consecutiveFrom start 0 = [] := rfl

theorem consecutiveFrom_succ (start : Int) (n : ℕ) :
    consecutiveFrom start (n + 1) = start :: consecutiveFrom (start + 1) n := by
  unfold consecutiveFrom
  rw [List.range_succ_eq_map, List.map_cons, List.map_map]
  refine congrArg₂ _ (by simp) ?_
  apply List.map_congr_left
  intro a _
  simp [Function.comp]
  ring

theorem consecutiveFrom_add (start : Int) (m n : ℕ) :
    consecutiveFrom start (m + n)
      = consecutiveFrom start m ++ consecutiveFrom (start + (m : Int)) n := by
  unfold consecutiveFrom
  rw [List.range_add, List.map_append, List.map_map]
  refine congrArg₂ _ rfl ?_
  apply List.map_congr_left
  intro a _
  simp [Function.comp]
  ring

/-- The numbers handed out by `assignNumbers` are consecutive from `num`. -/
theorem assignNumbers_map_number (pls : List StampPlacement) (num : Int) :
    (assignNumbers num pls).map (fun pl => pl.number)
      = consecutiveFrom num pls.length := by
  induction pls generalizing num with
  | nil => rfl
  | cons p rest ih =>
    rw [List.length_cons, consecutiveFrom_succ]
    simp only [assignNumbers, List.map_cons, ih]

/-- Example pieces for the renumbering scenario of the spec: P1 carries no
placement, P2 and P3 carry one placement each. -/
def exP1 : PieceDocument := ⟨"p1", "a.pdf", none, [1], 1, []⟩

/-- Second example piece, one placement. -/
def exP2 : PieceDocument := ⟨"p2", "b.pdf", none, [2], 1, [⟨0, 10, 20, 0⟩]⟩

/-- Third example piece, one placement. -/
def exP3 : PieceDocument := ⟨"p3", "c.pdf", none, [3], 2, [⟨0, 30, 40, 0⟩]⟩

/-- C4: renumbering walks pieces in list order, skips pieces with no
placement, and assigns consecutive numbers from `startNumber`: the flattened
placement numbers of the output are `startNumber, startNumber+1, ...`.
In particular, on pieces `[P1(0), P2(1), P3(1)]` with start 5, the placement
of P2 gets 5 and that of P3 gets 6, and after reordering to `[P3, P2, P1]`,
P3 gets 5 and P2 gets 6. -/
theorem recalculateNumbers_consecutive :
    (∀ (pieces : List PieceDocument) (start : Int),
        ((recalculateNumbers pieces start).flatMap (fun p => p.placements)).map
            (fun pl => pl.number)
          = consecutiveFrom start (pieces.flatMap (fun p => p.placements)).length) ∧
    (recalculateNumbers [exP1, exP2, exP3] 5).map
        (fun p => p.placements.map (fun pl => pl.number)) = [[], [5], [6]] ∧
    (recalculateNumbers [exP3, exP2, exP1] 5).map
        (fun p => p.placements.map (fun pl => pl.number)) = [[5], [6], []] := by
  refine ⟨?_, by rfl, by rfl⟩
  intro pieces start
  induction pieces generalizing start with
  | nil => rfl
  | cons piece rest ih =>
    by_cases h : piece.placements.length = 0
    · have hempty : piece.placements = [] := List.length_eq_zero.mp h
      rw [recalculateNumbers, if_pos h]
      rw [List.flatMap_cons, List.flatMap_cons, hempty]
      simp only [List.nil_append, ih]
    · rw [recalculateNumbers, if_neg h]
      rw [List.flatMap_cons, List.flatMap_cons, List.map_append,
        assignNumbers_map_number, List.length_append, consecutiveFrom_add, ih]

/-- Lemma: `assignNumbers` changes only the `number` field of each placement. -/
theorem assignNumbers_strip (pls : List StampPlacement) (num : Int) :
    (assignNumbers num pls).map (fun pl => { pl with number := 0 })
      = pls.map (fun pl => { pl with number := 0 }) := by
  induction pls generalizing num with
  | nil => rfl
  | cons p rest ih => simp [assignNumbers, ih]

/-- C9: the renumbering pass changes only the `number` field of placements:
after forgetting stamp numbers, the output piece list is identical to the
input piece list (same order, ids, file names, bytes, page counts, placement
counts, and placement positions). -/
theorem recalculateNumbers_frame (pieces : List PieceDocument) (start : Int) :
    (recalculateNumbers pieces start).map stripNumbers = pieces.map stripNumbers := by
  induction pieces generalizing start with
  | nil => rfl
  | cons piece rest ih =>
    by_cases h : piece.placements.length = 0
    · simp only [recalculateNumbers, if_pos h, List.map_cons, ih]
    · simp only [recalculateNumbers, if_neg h, List.map_cons, ih,
        List.cons.injEq, and_true]
      simp only [stripNumbers]
      rw [assignNumbers_strip]

/-! ### C10: fitFontSize on the empty string -/

/-- C10: for a positive `maxFontSize`, positive radius and non-negative
angular span, `fitFontSize` on the empty string computes a negative total
width, `spacing * (0 - 1)`, so the very first attempt passes the check and
`maxFontSize` is returned unchanged. -/
theorem fitFontSize_empty_text (w : Char → ℚ → ℚ) (maxFontSize radius maxAngle : ℚ)
    (hM : 0 < maxFontSize) (hr : 0 < radius) (ha : 0 ≤ maxAngle) :
    fitFontSize w "" maxFontSize radius maxAngle = maxFontSize ∧
    totalWidth w [] maxFontSize < 0 ∧
    evaluatedSizes w "".data radius maxAngle 20 maxFontSize = [maxFontSize] := by
  have hwidth : totalWidth w [] maxFontSize = -(maxFontSize * (8/100)) := by
    simp [totalWidth]
  have hneg : totalWidth w [] maxFontSize < 0 := by
    rw [hwidth]
    nlinarith
  have hangle : totalAngle w [] maxFontSize radius ≤ maxAngle := by
    have : totalAngle w [] maxFontSize radius < 0 := div_neg_of_neg_of_pos hneg hr
    linarith
  have hdata : ("" : String).data = ([] : List Char) := rfl
  refine ⟨?_, hneg, ?_⟩
  · unfold fitFontSize
    rw [hdata]
    unfold fitLoop
    rw [if_pos hangle]
  · rw [hdata]
    unfold evaluatedSizes
    rw [if_pos hangle]

/-- C10 witness: the empty-string behaviour at a concrete input. -/
theorem fitFontSize_empty_text_witness :
    fitFontSize (fun _ s => s) "" 1 1 0 = 1 ∧
    totalWidth (fun _ s => s) [] 1 < 0 ∧
    evaluatedSizes (fun _ s => s) "".data 1 0 20 1 = [1] :=
  fitFontSize_empty_text (fun _ s => s) 1 1 0 (by norm_num) (by norm_num) (by norm_num)

/-! ### C5: fitFontSize shrink loop -/

/-- Full characterisation of the shrink loop: the result is
`fontSize * 0.9^j` where `j` counts the failed checks; every earlier size
failed the check, and if the fuel was not exhausted the final size passed it.
When the fuel is exhausted (`j = fuel`) the returned size was never
checked. -/
theorem fitLoop_spec (w : Char → ℚ → ℚ) (chars : List Char) (radius maxAngle : ℚ) :
    ∀ (fuel : ℕ) (fontSize : ℚ),
      ∃ j, j ≤ fuel ∧
        fitLoop w chars radius maxAngle fuel fontSize = fontSize * (9/10)^j ∧
        (∀ i < j, ¬ totalAngle w chars (fontSize * (9/10)^i) radius ≤ maxAngle) ∧
        (j < fuel → totalAngle w chars (fontSize * (9/10)^j) radius ≤ maxAngle) := by
  intro fuel
  induction fuel with
  | zero =>
    intro fontSize
    refine ⟨0, le_refl 0, by simp [fitLoop], ?_, ?_⟩
    · intro i hi
      exact absurd hi (Nat.not_lt_zero i)
    · intro hlt
      exact absurd hlt (lt_irrefl 0)
  | succ n ih =>
    intro fontSize
    by_cases h : totalAngle w chars fontSize radius ≤ maxAngle
    · refine ⟨0, Nat.zero_le _, by simp [fitLoop, h], ?_, ?_⟩
      · intro i hi
        exact absurd hi (Nat.not_lt_zero i)
      · intro _
        simpa using h
    · obtain ⟨j, hj, heq, hfail, hpass⟩ := ih (fontSize * (9/10))
      refine ⟨j + 1, by omega, ?_, ?_, ?_⟩
      · rw [show fitLoop w chars radius maxAngle (n+1) fontSize
            = fitLoop w chars radius maxAngle n (fontSize * (9/10)) from by
              simp [fitLoop, h]]
        rw [heq]
        ring
      · intro i hi
        cases i with
        | zero => simpa using h
        | succ k =>
          have hk := hfail k (by omega)
          have harr : fontSize * (9/10)^(k+1) = fontSize * (9/10) * (9/10)^k := by ring
          rw [harr]
          exact hk
      · intro hlt
        have hp := hpass (by omega)
        have harr : fontSize * (9/10)^(j+1) = fontSize * (9/10) * (9/10)^j := by ring
        rw [harr]
        exact hp

/-- C5 (amended): `fitFontSize` starts at `maxFontSize`, multiplies by 0.9
after each failed angular-width check, performs at most 20 checks, and never
returns more than `maxFontSize`. It returns the first checked size that
passes if one of the 20 checked sizes passes; when all 20 checks fail it
returns `maxFontSize * 0.9^20`, a size 0.9 times the last checked size that
was itself never checked. -/
theorem fitFontSize_shrink_spec (w : Char → ℚ → ℚ) (text : String)
    (maxFontSize radius maxAngle : ℚ) (hM : 0 < maxFontSize) :
    ∃ j, j ≤ 20 ∧
      fitFontSize w text maxFontSize radius maxAngle = maxFontSize * (9/10)^j ∧
      fitFontSize w text maxFontSize radius maxAngle ≤ maxFontSize ∧
      (∀ i < j, ¬ totalAngle w text.data (maxFontSize * (9/10)^i) radius ≤ maxAngle) ∧
      (j < 20 → totalAngle w text.data (maxFontSize * (9/10)^j) radius ≤ maxAngle) := by
  obtain ⟨j, hj, heq, hfail, hpass⟩ := fitLoop_spec w text.data radius maxAngle 20 maxFontSize
  refine ⟨j, hj, heq, ?_, hfail, hpass⟩
  unfold fitFontSize
  rw [heq]
  have hpow : ((9:ℚ)/10)^j ≤ 1 := pow_le_one₀ (by norm_num) (by norm_num)
  nlinarith

/-- C5 witness: the shrink-loop characterisation at a concrete input. -/
theorem fitFontSize_shrink_spec_witness :
    ∃ j, j ≤ 20 ∧
      fitFontSize (fun _ s => s) "AB" 1 1 3 = 1 * (9/10)^j ∧
      fitFontSize (fun _ s => s) "AB" 1 1 3 ≤ 1 ∧
      (∀ i < j, ¬ totalAngle (fun _ s => s) "AB".data (1 * (9/10)^i) 1 ≤ 3) ∧
      (j < 20 → totalAngle (fun _ s => s) "AB".data (1 * (9/10)^j) 1 ≤ 3) :=
  fitFontSize_shrink_spec (fun _ s => s) "AB" 1 1 3 (by norm_num)

/-- C5 (counterexample): with unit glyph widths, text "AB", radius 1 and
max angular span 0, every one of the 20 checks fails, so `fitFontSize`
returns `0.9^20` — a size that is not among the sizes at which the
angular-width check was evaluated (the last evaluated size is `0.9^19`). -/
theorem fitFontSize_last_tried_counterexample :
    fitFontSize (fun _ s => s) "AB" 1 1 0 = (9/10 : ℚ)^20 ∧
    (evaluatedSizes (fun _ s => s) "AB".data 1 0 20 1).getLast? = some ((9/10 : ℚ)^19) ∧
    ((9/10 : ℚ)^20) ∉ evaluatedSizes (fun _ s => s) "AB".data 1 0 20 1 := by
  have hdata : ("AB" : String).data = ['A', 'B'] := rfl
  have hlist : evaluatedSizes (fun _ s => s) "AB".data 1 0 20 1
      = (List.range 20).map (fun (i : ℕ) => ((9:ℚ)/10)^i) := by
    rw [hdata]
    norm_num [evaluatedSizes, totalAngle, totalWidth, List.range_succ]
  refine ⟨?_, ?_, ?_⟩
  · unfold fitFontSize
    rw [hdata]
    norm_num [fitLoop, totalAngle, totalWidth]
  · rw [hlist]
    norm_num [List.range_succ]
  · rw [hlist]
    intro hmem
    obtain ⟨i, hi, hieq⟩ := List.mem_map.mp hmem
    have hirange : i < 20 := List.mem_range.mp hi
    have hlt : ((9:ℚ)/10)^20 < ((9:ℚ)/10)^i := by
      apply pow_lt_pow_right_of_lt_one₀ (by norm_num) (by norm_num) hirange
    rw [hieq] at hlt
    exact lt_irrefl _ hlt

/-! ### C6: arc-fit monotonicity in the text -/

/-- The linear coefficient of the total width in the font size, for a
glyph-width function that is linear in the font size. -/
def widthCoef (coeff : Char → ℚ) (chars : List Char) : ℚ :=
  (chars.map coeff).sum + (8/100) * ((chars.length : ℚ) - 1)

/-- For a linear glyph-width function the total width is linear in the font
size. -/
theorem totalWidth_linear (w : Char → ℚ → ℚ) (coeff : Char → ℚ)
    (hlin : ∀ c s, w c s = coeff c * s) (chars : List Char) (fontSize : ℚ) :
    totalWidth w chars fontSize = fontSize * widthCoef coeff chars := by
  unfold totalWidth widthCoef
  have hmap : chars.map (fun c => w c fontSize) = chars.map (fun c => coeff c * fontSize) := by
    apply List.map_congr_left
    intro c _
    exact hlin c fontSize
  rw [hmap, List.sum_map_mul_right]
  ring

/-- Appending characters never decreases the width coefficient when each
glyph has non-negative width. -/
theorem widthCoef_append_le (coeff : Char → ℚ) (hnn : ∀ c, 0 ≤ coeff c)
    (t u : List Char) : widthCoef coeff t ≤ widthCoef coeff (t ++ u) := by
  unfold widthCoef
  rw [List.map_append, List.sum_append, List.length_append]
  have hsum : 0 ≤ (u.map coeff).sum := by
    apply List.sum_nonneg
    intro x hx
    obtain ⟨c, _, hc⟩ := List.mem_map.mp hx
    rw [← hc]
    exact hnn c
  have hlen : (0:ℚ) ≤ (u.length : ℚ) := by positivity
  push_cast
  nlinarith

/-- The shrink loop never returns more than its starting size (for a
non-negative start). -/
theorem fitLoop_le (w : Char → ℚ → ℚ) (chars : List Char) (radius maxAngle : ℚ) :
    ∀ (fuel : ℕ) (fontSize : ℚ), 0 ≤ fontSize →
      fitLoop w chars radius maxAngle fuel fontSize ≤ fontSize := by
  intro fuel
  induction fuel with
  | zero =>
    intro fontSize _
    simp [fitLoop]
  | succ n ih =>
    intro fontSize hfs
    by_cases h : totalAngle w chars fontSize radius ≤ maxAngle
    · simp [fitLoop, h]
    · calc fitLoop w chars radius maxAngle (n+1) fontSize
          = fitLoop w chars radius maxAngle n (fontSize * (9/10)) := by simp [fitLoop, h]
        _ ≤ fontSize * (9/10) := ih _ (by positivity)
        _ ≤ fontSize := by nlinarith

/-- For a linear glyph-width function, a character row with a larger width
coefficient never yields a larger fitted size (the shrink loop shrinks at
least as often). -/
theorem fitLoop_mono (coeff : Char → ℚ) (radius maxAngle : ℚ) (hr : 0 < radius)
    (chars1 chars2 : List Char)
    (hK : widthCoef coeff chars1 ≤ widthCoef coeff chars2) :
    ∀ (fuel : ℕ) (fontSize : ℚ), 0 ≤ fontSize →
      fitLoop (fun c s => coeff c * s) chars2 radius maxAngle fuel fontSize
        ≤ fitLoop (fun c s => coeff c * s) chars1 radius maxAngle fuel fontSize := by
  have hangle : ∀ (chars : List Char) (fs : ℚ),
      totalAngle (fun c s => coeff c * s) chars fs radius
        = fs * widthCoef coeff chars / radius := by
    intro chars fs
    unfold totalAngle
    rw [totalWidth_linear (fun c s => coeff c * s) coeff (fun _ _ => rfl)]
  have himp : ∀ (fs : ℚ), 0 ≤ fs →
      totalAngle (fun c s => coeff c * s) chars2 fs radius ≤ maxAngle →
      totalAngle (fun c s => coeff c * s) chars1 fs radius ≤ maxAngle := by
    intro fs hfs h2
    rw [hangle] at h2 ⊢
    have hmul : fs * widthCoef coeff chars1 ≤ fs * widthCoef coeff chars2 :=
      mul_le_mul_of_nonneg_left hK hfs
    have hdiv : fs * widthCoef coeff chars1 / radius
        ≤ fs * widthCoef coeff chars2 / radius :=
      div_le_div_of_nonneg_right hmul hr.le
    exact le_trans hdiv h2
  intro fuel
  induction fuel with
  | zero =>
    intro fontSize _
    simp [fitLoop]
  | succ n ih =>
    intro fontSize hfs
    by_cases h2 : totalAngle (fun c s => coeff c * s) chars2 fontSize radius ≤ maxAngle
    · have h1 := himp fontSize hfs h2
      simp [fitLoop, h1, h2]
    · by_cases h1 : totalAngle (fun c s => coeff c * s) chars1 fontSize radius ≤ maxAngle
      · calc fitLoop (fun c s => coeff c * s) chars2 radius maxAngle (n+1) fontSize
            = fitLoop (fun c s => coeff c * s) chars2 radius maxAngle n
                (fontSize * (9/10)) := by simp [fitLoop, h2]
          _ ≤ fontSize * (9/10) :=
              fitLoop_le (fun c s => coeff c * s) chars2 radius maxAngle n _ (by positivity)
          _ ≤ fontSize := by nlinarith
          _ = fitLoop (fun c s => coeff c * s) chars1 radius maxAngle (n+1) fontSize := by
              simp [fitLoop, h1]
      · calc fitLoop (fun c s => coeff c * s) chars2 radius maxAngle (n+1) fontSize
            = fitLoop (fun c s => coeff c * s) chars2 radius maxAngle n
                (fontSize * (9/10)) := by simp [fitLoop, h2]
          _ ≤ fitLoop (fun c s => coeff c * s) chars1 radius maxAngle n
                (fontSize * (9/10)) := ih _ (by positivity)
          _ = fitLoop (fun c s => coeff c * s) chars1 radius maxAngle (n+1) fontSize := by
              simp [fitLoop, h1]

/-- C6: for a fixed radius, fixed max angular span and fixed `maxFontSize`,
and any glyph-width function linear in the font size with non-negative
per-glyph coefficients, appending characters to the text never increases the
result of `fitFontSize`, and the result never exceeds the requested
maximum. -/
theorem fitFontSize_append_mono (w : Char → ℚ → ℚ) (coeff : Char → ℚ)
    (hlin : ∀ c s, w c s = coeff c * s) (hnn : ∀ c, 0 ≤ coeff c)
    (t u : String) (maxFontSize radius maxAngle : ℚ)
    (hr : 0 < radius) (hM : 0 ≤ maxFontSize) :
    fitFontSize w (t ++ u) maxFontSize radius maxAngle
      ≤ fitFontSize w t maxFontSize radius maxAngle ∧
    fitFontSize w (t ++ u) maxFontSize radius maxAngle ≤ maxFontSize := by
  have hw : w = fun c s => coeff c * s := by
    funext c s
    exact hlin c s
  subst hw
  have hdata : (t ++ u).data = t.data ++ u.data := by
    simp [String.data_append]
  constructor
  · unfold fitFontSize
    rw [hdata]
    exact fitLoop_mono coeff radius maxAngle hr t.data (t.data ++ u.data)
      (widthCoef_append_le coeff hnn t.data u.data) 20 maxFontSize hM
  · exact fitLoop_le _ _ radius maxAngle 20 maxFontSize hM

/-- C6 witness: monotonicity evaluated at a concrete input. -/
theorem fitFontSize_append_mono_witness :
    fitFontSize (fun _ s => s) ("A" ++ "B") 1 1 1 ≤ fitFontSize (fun _ s => s) "A" 1 1 1 ∧
    fitFontSize (fun _ s => s) ("A" ++ "B") 1 1 1 ≤ 1 :=
  fitFontSize_append_mono (fun _ s => s) (fun _ => 1) (fun _ s => (one_mul s).symm)
    (fun _ => zero_le_one) "A" "B" 1 1 1 (by norm_num) (by norm_num)

/-! ### C8 / C7 / C3: merge and split -/

/-- Copying a contiguous in-range slice of pages succeeds and yields exactly
that slice (indices and length given as the integers appearing in the
source). -/
theorem copyPages_range (src : List PdfPage) :
    ∀ (n : ℕ) (a b : Int), 0 ≤ a → b.toNat = n → a.toNat + n ≤ src.length →
      copyPages src (rangeFromInt a b) = Except.ok ((src.drop a.toNat).take n) := by
  intro n
  induction n with
  | zero =>
    intro a b _ hb _
    unfold rangeFromInt
    rw [hb]
    rfl
  | succ m ih =>
    intro a b ha hb hlen
    have hlt : a.toNat < src.length := by omega
    have hcons : rangeFromInt a b = a :: rangeFromInt (a + 1) (m : Int) := by
      unfold rangeFromInt
      rw [hb, Int.toNat_natCast, List.range_succ_eq_map, List.map_cons, List.map_map]
      refine congrArg₂ _ (by simp) ?_
      apply List.map_congr_left
      intro j _
      simp [Function.comp]
      ring
    have hget : getPage src a.toNat = Except.ok (src.get ⟨a.toNat, hlt⟩) := by
      simp [getPage, List.getElem?_eq_getElem hlt]
    have hih := ih (a + 1) (m : Int) (by omega) (by omega) (by omega)
    have htn : (a + 1).toNat = a.toNat + 1 := by omega
    rw [htn] at hih
    rw [hcons]
    unfold copyPages at hih ⊢
    rw [List.mapM_cons, if_pos ha, hget, hih]
    show Except.ok (src.get ⟨a.toNat, hlt⟩ :: (src.drop (a.toNat + 1)).take m) = _
    rw [List.drop_eq_getElem_cons hlt, List.take_succ_cons]
    rfl

/-- Lemma shared by the merge theorems: `mergePdfs` succeeds and
concatenates the two page lists. -/
theorem mergePdfs_eq_append (doc1 doc2 : List PdfPage) :
    mergePdfs doc1 doc2 = Except.ok (doc1 ++ doc2) := by
  have h := copyPages_range doc2 doc2.length 0 (doc2.length : Int)
    (by omega) (by omega) (by omega)
  unfold mergePdfs
  rw [h]
  simp only [Int.toNat_zero, List.drop_zero, List.take_length]
  rfl

/-- C8: merging a document of `p` pages with a document of `q` pages succeeds
and yields all pages of the first followed by all pages of the second, in
their original relative order: exactly `p + q` pages. -/
theorem mergePdfs_append (doc1 doc2 : List PdfPage) :
    mergePdfs doc1 doc2 = Except.ok (doc1 ++ doc2) ∧
    (doc1 ++ doc2).length = doc1.length + doc2.length := by
  constructor
  · exact mergePdfs_eq_append doc1 doc2
  · simp

/-- Lemma: `splitPdf` at a valid zero-based index `k < pageCount` succeeds, with
part1 the first `k+1` pages and part2 the remaining pages. -/
theorem splitPdf_ok (pages : List PdfPage) (k : ℕ) (hk : k < pages.length) :
    splitPdf pages (k : Int) = Except.ok (pages.take (k + 1), pages.drop (k + 1)) := by
  unfold splitPdf
  have hc1 := copyPages_range pages (k + 1) 0 ((k : Int) + 1)
    (by omega) (by omega) (by omega)
  have hc2 := copyPages_range pages (pages.length - (k + 1)) ((k : Int) + 1)
    ((pages.length : Int) - (k : Int) - 1) (by omega) (by omega) (by omega)
  have htn : ((k : Int) + 1).toNat = k + 1 := by omega
  rw [htn] at hc2
  have htake : (pages.drop (k + 1)).take (pages.length - (k + 1)) = pages.drop (k + 1) := by
    have hlen : (pages.drop (k + 1)).length = pages.length - (k + 1) := by simp
    rw [← hlen, List.take_length]
  rw [htake] at hc2
  rw [hc1, hc2]
  simp only [Int.toNat_zero, List.drop_zero]
  rfl

/-- Any out-of-range index in the list makes `copyPages` fail. -/
theorem copyPages_err (src : List PdfPage) (indices : List Int) (i : Int)
    (hi : i ∈ indices) (hbad : i < 0 ∨ (src.length : Int) ≤ i) :
    ∃ e, copyPages src indices = Except.error e := by
  induction indices with
  | nil => exact absurd hi (List.not_mem_nil i)
  | cons a rest ih =>
    rcases List.mem_cons.mp hi with rfl | hmem
    · have hhead : (if 0 ≤ i then getPage src i.toNat
          else Except.error "page index out of range")
          = Except.error "page index out of range" := by
        rcases hbad with hneg | hbig
        · rw [if_neg (by omega)]
        · rw [if_pos (by omega)]
          have hge : src.length ≤ i.toNat := by omega
          simp [getPage, List.getElem?_eq_none hge]
      refine ⟨"page index out of range", ?_⟩
      unfold copyPages
      rw [List.mapM_cons, hhead]
      rfl
    · rcases h : (if 0 ≤ a then getPage src a.toNat
          else Except.error "page index out of range") with e | v
      · refine ⟨e, ?_⟩
        unfold copyPages
        rw [List.mapM_cons, h]
        rfl
      · obtain ⟨e, he⟩ := ih hmem
        refine ⟨e, ?_⟩
        unfold copyPages at he ⊢
        rw [List.mapM_cons, h, he]
        rfl

/-- C3 (amended): through the split-pdf IPC channel, splitting fails for a
negative `afterPageIndex` (rejected by the channel validation) and for
`afterPageIndex ≥ pageCount` (out-of-range page copy); for
`0 ≤ afterPageIndex ≤ pageCount - 1` it succeeds, with part1 holding
`afterPageIndex + 1` pages and part2 the rest — in particular, at
`afterPageIndex = pageCount - 1` it succeeds with an empty part2 rather than
failing. -/
theorem splitPdfChannel_range_spec (pages : List PdfPage) (afterPageIndex : Int) :
    ((afterPageIndex < 0 ∨ (pages.length : Int) ≤ afterPageIndex) →
      ∃ e, splitPdfChannel pages afterPageIndex = Except.error e) ∧
    (0 ≤ afterPageIndex → afterPageIndex < (pages.length : Int) →
      splitPdfChannel pages afterPageIndex
        = Except.ok (pages.take (afterPageIndex.toNat + 1),
                     pages.drop (afterPageIndex.toNat + 1))) := by
  constructor
  · intro hbad
    by_cases hneg : afterPageIndex < 0
    · refine ⟨"Index de page invalide pour la scission.", ?_⟩
      unfold splitPdfChannel
      rw [if_pos hneg]
    · have hbig : (pages.length : Int) ≤ afterPageIndex := by tauto
      have hmem : afterPageIndex ∈ rangeFromInt 0 (afterPageIndex + 1) := by
        unfold rangeFromInt
        rw [List.mem_map]
        refine ⟨afterPageIndex.toNat, ?_, by omega⟩
        rw [List.mem_range]
        omega
      obtain ⟨e, he⟩ := copyPages_err pages (rangeFromInt 0 (afterPageIndex + 1))
        afterPageIndex hmem (Or.inr hbig)
      refine ⟨e, ?_⟩
      unfold splitPdfChannel
      rw [if_neg hneg]
      unfold splitPdf
      rw [he]
      rfl
  · intro hnonneg hlt
    have hklt : afterPageIndex.toNat < pages.length := by omega
    have hcast : ((afterPageIndex.toNat : ℕ) : Int) = afterPageIndex := by omega
    unfold splitPdfChannel
    rw [if_neg (by omega)]
    rw [← hcast]
    exact splitPdf_ok pages afterPageIndex.toNat hklt

/-- C3 witness: on a two-page document, index 0 is accepted and splits one
page off. -/
theorem splitPdfChannel_range_spec_witness :
    splitPdfChannel [⟨1, 1, 0, []⟩, ⟨1, 2, 0, []⟩] 0
      = Except.ok ([⟨1, 1, 0, []⟩], [⟨1, 2, 0, []⟩]) :=
  (splitPdfChannel_range_spec [⟨1, 1, 0, []⟩, ⟨1, 2, 0, []⟩] 0).2 (by norm_num) (by norm_num)

/-- C3 (counterexample): on a two-page document, `afterPageIndex = 1` equals
the last valid page index `pageCount - 1`; the claim says this must fail, but
the split succeeds, returning the whole document as part1 and an empty
part2. -/
theorem splitPdf_last_index_counterexample :
    splitPdfChannel [⟨1, 1, 0, []⟩, ⟨1, 2, 0, []⟩] 1
      = Except.ok ([⟨1, 1, 0, []⟩, ⟨1, 2, 0, []⟩], []) ∧
    isErr (splitPdfChannel [⟨1, 1, 0, []⟩, ⟨1, 2, 0, []⟩] 1) = false := by
  constructor
  · rfl
  · rfl

/-- C7: splitting a document of `p ≥ k + 2` pages after page `k` yields
`k + 1` and `p - k - 1` pages, and merging the two parts yields `p` pages
again. -/
theorem splitPdf_merge_roundtrip (pages : List PdfPage) (k : ℕ)
    (hk : k + 2 ≤ pages.length) :
    ∃ part1 part2,
      splitPdf pages (k : Int) = Except.ok (part1, part2) ∧
      part1.length = k + 1 ∧
      part2.length = pages.length - (k + 1) ∧
      mergePdfs part1 part2 = Except.ok (part1 ++ part2) ∧
      (part1 ++ part2).length = pages.length := by
  refine ⟨pages.take (k + 1), pages.drop (k + 1),
    splitPdf_ok pages k (by omega), ?_, ?_, ?_, ?_⟩
  · rw [List.length_take_of_le (by omega)]
  · simp
  · exact mergePdfs_eq_append _ _
  · rw [List.take_append_drop]

/-- C7 witness: the split/merge round trip on a concrete three-page
document. -/
theorem splitPdf_merge_roundtrip_witness :
    ∃ part1 part2,
      splitPdf [⟨1, 1, 0, []⟩, ⟨1, 2, 0, []⟩, ⟨1, 3, 0, []⟩] ((0 : ℕ) : Int)
        = Except.ok (part1, part2) ∧
      part1.length = 0 + 1 ∧
      part2.length = [⟨1, 1, 0, []⟩, ⟨1, 2, 0, []⟩, (⟨1, 3, 0, []⟩ : PdfPage)].length - (0 + 1) ∧
      mergePdfs part1 part2 = Except.ok (part1 ++ part2) ∧
      (part1 ++ part2).length = [⟨1, 1, 0, []⟩, ⟨1, 2, 0, []⟩, (⟨1, 3, 0, []⟩ : PdfPage)].length :=
  splitPdf_merge_roundtrip [⟨1, 1, 0, []⟩, ⟨1, 2, 0, []⟩, ⟨1, 3, 0, []⟩] 0 (by norm_num)

/-! ### C2: rotation normalization in applyStamps -/

/-- Removing the page at a valid index and inserting a replacement at the
same index is the same as replacing it in place. -/
theorem eraseIdx_insertIdx_eq_set {α : Type} (l : List α) (i : ℕ) (v : α)
    (h : i < l.length) : (l.eraseIdx i).insertIdx i v = l.set i v := by
  induction l generalizing i with
  | nil => simp at h
  | cons a t ih =>
    cases i with
    | zero => rfl
    | succ j =>
      simp only [List.eraseIdx_cons_succ, List.insertIdx_succ_cons, List.set_cons_succ]
      rw [ih]
      simpa using h

/-- One `applyStamps` iteration at a valid index replaces exactly that page
by its stamped version. -/
theorem stampStep_eq_set (cfg : StampConfig) (placements : List StampPlacement)
    (pages : List PdfPage) (idx : ℕ) (h : idx < pages.length) :
    stampStep cfg placements pages idx
      = Except.ok (pages.set idx (stampPage cfg placements idx (pages.get ⟨idx, h⟩))) := by
  have hget : getPage pages idx = Except.ok (pages.get ⟨idx, h⟩) := by
    simp [getPage, List.getElem?_eq_getElem h]
  unfold stampStep
  rw [hget]
  show (if (pages.get ⟨idx, h⟩).rotationAngle = 0 then _ else _) = _
  by_cases hrot : (pages.get ⟨idx, h⟩).rotationAngle = 0
  · rw [if_pos hrot]
  · rw [if_neg hrot, eraseIdx_insertIdx_eq_set pages idx _ h]

/-- Folding `stampStep` over a duplicate-free list of valid page indices
succeeds and replaces exactly the listed pages by their stamped versions. -/
theorem foldStamp_spec (cfg : StampConfig) (placements : List StampPlacement) :
    ∀ (idxs : List ℕ) (pages : List PdfPage), idxs.Nodup →
      (∀ j ∈ idxs, j < pages.length) →
      ∃ out, List.foldlM (stampStep cfg placements) pages idxs = Except.ok out ∧
        out.length = pages.length ∧
        ∀ (k : ℕ) (hk : k < pages.length),
          out[k]? = some (if k ∈ idxs then stampPage cfg placements k (pages.get ⟨k, hk⟩)
                          else pages.get ⟨k, hk⟩) := by
  intro idxs
  induction idxs with
  | nil =>
    intro pages _ _
    refine ⟨pages, rfl, rfl, ?_⟩
    intro k hk
    simp [List.getElem?_eq_getElem hk]
  | cons idx rest ih =>
    intro pages hnd hbound
    have hidx : idx < pages.length := hbound idx (List.mem_cons_self idx rest)
    have hstep := stampStep_eq_set cfg placements pages idx hidx
    have hnd2 : rest.Nodup := (List.nodup_cons.mp hnd).2
    have hnotmem : idx ∉ rest := (List.nodup_cons.mp hnd).1
    have hbound2 : ∀ j ∈ rest, j < (pages.set idx (stampPage cfg placements idx (pages.get ⟨idx, hidx⟩))).length := by
      intro j hj
      rw [List.length_set]
      exact hbound j (List.mem_cons_of_mem idx hj)
    obtain ⟨out, hfold, hlen, hchar⟩ := ih _ hnd2 hbound2
    refine ⟨out, ?_, by rw [hlen, List.length_set], ?_⟩
    · rw [List.foldlM_cons, hstep]
      exact hfold
    · intro k hk
      have hk2 : k < (pages.set idx (stampPage cfg placements idx (pages.get ⟨idx, hidx⟩))).length := by
        rw [List.length_set]
        exact hk
      have hget_set : (pages.set idx (stampPage cfg placements idx (pages.get ⟨idx, hidx⟩))).get ⟨k, hk2⟩
          = if k = idx then stampPage cfg placements idx (pages.get ⟨idx, hidx⟩)
            else pages.get ⟨k, hk⟩ := by
        by_cases hkeq : k = idx
        · subst hkeq
          simp [List.getElem_set]
        · have hne : idx ≠ k := fun hc => hkeq hc.symm
          simp [List.getElem_set, hne, hkeq]
      have := hchar k hk2
      rw [hget_set] at this
      by_cases hkmem : k ∈ rest
      · have hkne : k ≠ idx := by
          intro hkeq
          exact hnotmem (hkeq ▸ hkmem)
        rw [if_pos hkmem, if_neg hkne] at this
        rw [this, if_pos (List.mem_cons_of_mem idx hkmem)]
      · rw [if_neg hkmem] at this
        by_cases hkeq : k = idx
        · subst hkeq
          rw [if_pos rfl] at this
          rw [this, if_pos (List.mem_cons_self k rest)]
        · rw [if_neg hkeq] at this
          rw [this, if_neg ?_]
          intro hmem
          rcases List.mem_cons.mp hmem with h1 | h2
          · exact hkeq h1
          · exact hkmem h2

/-- Looking up a list of valid indices succeeds. -/
theorem mapM_getPage_ok (pages : List PdfPage) :
    ∀ (idxs : List ℕ), (∀ j ∈ idxs, j < pages.length) →
      ∃ ps, idxs.mapM (getPage pages) = Except.ok ps := by
  intro idxs
  induction idxs with
  | nil => exact fun _ => ⟨[], rfl⟩
  | cons a rest ih =>
    intro hbound
    have ha : a < pages.length := hbound a (List.mem_cons_self a rest)
    have hget : getPage pages a = Except.ok (pages.get ⟨a, ha⟩) := by
      simp [getPage, List.getElem?_eq_getElem ha]
    obtain ⟨ps, hps⟩ := ih (fun j hj => hbound j (List.mem_cons_of_mem a hj))
    refine ⟨pages.get ⟨a, ha⟩ :: ps, ?_⟩
    rw [List.mapM_cons, hget, hps]
    rfl

/-- Drawing stamps on a page changes only its recorded content, never its
dimensions or rotation flag. -/
theorem foldl_drawStampOnPage_fields (pls : List StampPlacement) (r : ℚ) :
    ∀ (base : PdfPage),
      (pls.foldl (fun pg pl => drawStampOnPage pg pl.x pl.y r pl.number) base).width
          = base.width ∧
      (pls.foldl (fun pg pl => drawStampOnPage pg pl.x pl.y r pl.number) base).height
          = base.height ∧
      (pls.foldl (fun pg pl => drawStampOnPage pg pl.x pl.y r pl.number) base).rotationAngle
          = base.rotationAngle := by
  induction pls with
  | nil => exact fun base => ⟨rfl, rfl, rfl⟩
  | cons p rest ih =>
    intro base
    rw [List.foldl_cons]
    exact ih (drawStampOnPage base p.x p.y r p.number)

/-- The per-page transform of `applyStamps` on a page with rotation flag 90
or 270 yields a replacement with rotation 0 and swapped dimensions; with flag
180 it yields rotation 0 and unchanged dimensions. -/
theorem stampPage_rotated (cfg : StampConfig) (placements : List StampPlacement)
    (idx : ℕ) (page : PdfPage) :
    ((page.rotationAngle = 90 ∨ page.rotationAngle = 270) →
      (stampPage cfg placements idx page).rotationAngle = 0 ∧
      (stampPage cfg placements idx page).width = page.height ∧
      (stampPage cfg placements idx page).height = page.width) ∧
    (page.rotationAngle = 180 →
      (stampPage cfg placements idx page).rotationAngle = 0 ∧
      (stampPage cfg placements idx page).width = page.width ∧
      (stampPage cfg placements idx page).height = page.height) := by
  constructor
  · intro hswap
    have hrot : ¬ page.rotationAngle = 0 := by
      rcases hswap with h | h <;> omega
    simp only [stampPage]
    have hifA : (if page.rotationAngle = 90 ∨ page.rotationAngle = 270
        then page.height else page.width) = page.height := if_pos hswap
    have hifB : (if page.rotationAngle = 90 ∨ page.rotationAngle = 270
        then page.width else page.height) = page.width := if_pos hswap
    rw [if_neg hrot, hifA, hifB]
    refine ⟨?_, ?_, ?_⟩
    · rw [(foldl_drawStampOnPage_fields _ _ _).2.2]
    · rw [(foldl_drawStampOnPage_fields _ _ _).1]
    · rw [(foldl_drawStampOnPage_fields _ _ _).2.1]
  · intro h180
    have hrot : ¬ page.rotationAngle = 0 := by omega
    have hswap : ¬ (page.rotationAngle = 90 ∨ page.rotationAngle = 270) := by omega
    simp only [stampPage]
    have hifA : (if page.rotationAngle = 90 ∨ page.rotationAngle = 270
        then page.height else page.width) = page.width := if_neg hswap
    have hifB : (if page.rotationAngle = 90 ∨ page.rotationAngle = 270
        then page.width else page.height) = page.height := if_neg hswap
    rw [if_neg hrot, hifA, hifB]
    refine ⟨?_, ?_, ?_⟩
    · rw [(foldl_drawStampOnPage_fields _ _ _).2.2]
    · rw [(foldl_drawStampOnPage_fields _ _ _).1]
    · rw [(foldl_drawStampOnPage_fields _ _ _).2.1]

/-- C2: for a document whose placements all target valid page indices,
`applyStamps` succeeds with the same page count, and every page carrying at
least one placement whose rotation flag is 90 or 270 is replaced by a page
with rotation flag 0 and its raw dimensions swapped; with flag 180 the
replacement has rotation flag 0 and the raw dimensions unchanged. -/
theorem applyStamps_rotation_normalization
    (pages : List PdfPage) (placements : List StampPlacement) (cfg : StampConfig)
    (hvalid : ∀ pl ∈ placements, pl.pageIndex < pages.length)
    (i : ℕ) (hi : i < pages.length)
    (hpl : ∃ pl ∈ placements, pl.pageIndex = i) :
    ∃ out, applyStamps pages placements cfg = Except.ok out ∧
      out.length = pages.length ∧
      ∃ page2, out[i]? = some page2 ∧
        (((pages.get ⟨i, hi⟩).rotationAngle = 90 ∨ (pages.get ⟨i, hi⟩).rotationAngle = 270) →
          page2.rotationAngle = 0 ∧ page2.width = (pages.get ⟨i, hi⟩).height ∧
          page2.height = (pages.get ⟨i, hi⟩).width) ∧
        ((pages.get ⟨i, hi⟩).rotationAngle = 180 →
          page2.rotationAngle = 0 ∧ page2.width = (pages.get ⟨i, hi⟩).width ∧
          page2.height = (pages.get ⟨i, hi⟩).height) := by
  have hperm : List.Perm ((placements.map (fun pl => pl.pageIndex)).dedup.mergeSort
      (fun a b => decide (b ≤ a))) (placements.map (fun pl => pl.pageIndex)).dedup :=
    List.mergeSort_perm _ _
  have hnd : ((placements.map (fun pl => pl.pageIndex)).dedup.mergeSort
      (fun a b => decide (b ≤ a))).Nodup :=
    hperm.symm.nodup (List.nodup_dedup _)
  have hmem : ∀ j, j ∈ (placements.map (fun pl => pl.pageIndex)).dedup.mergeSort
      (fun a b => decide (b ≤ a)) ↔ j ∈ placements.map (fun pl => pl.pageIndex) :=
    fun j => hperm.mem_iff.trans (List.mem_dedup)
  have hbound : ∀ j ∈ (placements.map (fun pl => pl.pageIndex)).dedup.mergeSort
      (fun a b => decide (b ≤ a)), j < pages.length := by
    intro j hj
    obtain ⟨pl, hplmem, hpleq⟩ := List.mem_map.mp ((hmem j).mp hj)
    rw [← hpleq]
    exact hvalid pl hplmem
  obtain ⟨ps, hps⟩ := mapM_getPage_ok pages _ hbound
  obtain ⟨out, hfold, hlen, hchar⟩ := foldStamp_spec cfg placements _ pages hnd hbound
  refine ⟨out, ?_, hlen, ?_⟩
  · unfold applyStamps
    dsimp only
    rw [hps]
    show List.foldlM (stampStep cfg placements) pages _ = Except.ok out
    exact hfold
  · obtain ⟨pl, hplmem, hpleq⟩ := hpl
    have hiidx : i ∈ (placements.map (fun pl => pl.pageIndex)).dedup.mergeSort
        (fun a b => decide (b ≤ a)) :=
      (hmem i).mpr (List.mem_map.mpr ⟨pl, hplmem, hpleq⟩)
    have hout := hchar i hi
    rw [if_pos hiidx] at hout
    obtain ⟨hsw, h180⟩ := stampPage_rotated cfg placements i (pages.get ⟨i, hi⟩)
    exact ⟨_, hout, hsw, h180⟩

/-- C2 witness: a two-page document, one page rotated 90 and one rotated 180,
each carrying a placement. -/
theorem applyStamps_rotation_normalization_witness :
    ∃ out, applyStamps [⟨595, 842, 90, []⟩, ⟨600, 800, 180, []⟩]
        [⟨0, 10, 20, 1⟩, ⟨1, 5, 6, 2⟩] ⟨"N", "B", 65⟩ = Except.ok out ∧
      out.length = [⟨595, 842, 90, []⟩, (⟨600, 800, 180, []⟩ : PdfPage)].length ∧
      ∃ page2, out[0]? = some page2 ∧
        ((([⟨595, 842, 90, []⟩, (⟨600, 800, 180, []⟩ : PdfPage)].get ⟨0, by norm_num⟩).rotationAngle = 90 ∨
          (([⟨595, 842, 90, []⟩, (⟨600, 800, 180, []⟩ : PdfPage)].get ⟨0, by norm_num⟩)).rotationAngle = 270) →
          page2.rotationAngle = 0 ∧
          page2.width = ([⟨595, 842, 90, []⟩, (⟨600, 800, 180, []⟩ : PdfPage)].get ⟨0, by norm_num⟩).height ∧
          page2.height = ([⟨595, 842, 90, []⟩, (⟨600, 800, 180, []⟩ : PdfPage)].get ⟨0, by norm_num⟩).width) ∧
        (([⟨595, 842, 90, []⟩, (⟨600, 800, 180, []⟩ : PdfPage)].get ⟨0, by norm_num⟩).rotationAngle = 180 →
          page2.rotationAngle = 0 ∧
          page2.width = ([⟨595, 842, 90, []⟩, (⟨600, 800, 180, []⟩ : PdfPage)].get ⟨0, by norm_num⟩).width ∧
          page2.height = ([⟨595, 842, 90, []⟩, (⟨600, 800, 180, []⟩ : PdfPage)].get ⟨0, by norm_num⟩).height) :=
  applyStamps_rotation_normalization
    [⟨595, 842, 90, []⟩, ⟨600, 800, 180, []⟩]
    [⟨0, 10, 20, 1⟩, ⟨1, 5, 6, 2⟩] ⟨"N", "B", 65⟩
    (by intro pl hpl
        rcases List.mem_cons.mp hpl with rfl | h2
        · norm_num
        · rcases List.mem_cons.mp h2 with rfl | h3
          · norm_num
          · exact absurd h3 (List.not_mem_nil _))
    0 (by norm_num)
    ⟨⟨0, 10, 20, 1⟩, List.mem_cons_self _ _, rfl⟩

end Stamp
